import Mathlib

/-!
Verification of the magicsock connection/path manager (wgengine/magicsock).

Definitions are shallow embeddings of the Go source in
`src/unnamed/part_004` (magicsock.go) and, where a function of this
repository is absent from `src/` (only its tests or callers are present),
a model built from the spec, marked `Modelled from the spec:` in its doc
comment.  Go machine integers that cannot overflow in the modelled ranges
are embedded as `Nat`; `time.Duration`/`time.Time` values are nanosecond
counts; Go maps are embedded as functions to `Option` or as association
lists, as noted at each definition.
-/

namespace Magicsock

/-! ## Candidate address comparison (`betterAddr`) -/

/-- An IP address, abstracted to the attributes `betterAddr` consults:
Go `netip.Addr.IsValid`, `Is6`, `IsPrivate`, plus an identity `ip`
so distinct addresses compare unequal. -/
structure Addr where
  valid : Bool
  is6 : Bool
  isPrivate : Bool
  ip : Nat
deriving DecidableEq

/-- Go `netip.AddrPort`: an address plus a port. The zero value has an
invalid address. -/
structure AddrPort where
  addr : Addr
  port : Nat
deriving DecidableEq

/-- Go `netip.AddrPort.IsValid`: valid iff the address is valid. -/
def AddrPort.validB (ap : AddrPort) : Bool := ap.addr.valid

/-- The `addrLatency` pair from the endpoint code: a candidate UDP
address together with its latest round-trip-time sample (nanoseconds). -/
structure addrLatency where
  addrPort : AddrPort
  latency : Nat
deriving DecidableEq

/-- Modelled from the spec: the latency-derived score pair used by
`betterAddr` (the function itself is absent from `src/`; only its test
`TestBetterAddr` in `src/wgengine/magicsock/magicsock_test.go` is
present).  Per spec section 4.1 rule 4, the faster candidate earns its
relative improvement over the slower one, as an integer percentage; the
numeric behavior is pinned by the vectors of `TestBetterAddr`. -/
def latPoints (a b : addrLatency) : Nat × Nat :=
  if b.latency < a.latency ∧ 0 < a.latency then
    (0, 100 - b.latency * 100 / a.latency)
  else if 0 < b.latency then
    (100 - a.latency * 100 / b.latency, 0)
  else (0, 0)

/-- Modelled from the spec: the address-type preference bonuses of spec
section 4.1 rules 5 and 6 — private/link-local ranges are preferred over
public ones, and IPv6 over IPv4, when latency is roughly comparable.
Magnitudes (20 and 10 points) are pinned by `TestBetterAddr`. -/
def typeBonus (x : addrLatency) : Nat :=
  (if x.addrPort.addr.isPrivate then 20 else 0) +
    (if x.addrPort.addr.is6 then 10 else 0)

/-- Modelled from the spec: `betterAddr a b` — "is candidate `a` strictly
better than candidate `b`" (spec section 4.1 selection rule; function
absent from `src/`, behavior pinned by `TestBetterAddr`).  An invalid
candidate never beats anything (rule 1); the same address never beats
itself (rule 2); otherwise each side scores latency points plus type
bonuses, with sub-1% latency differences ignored for stickiness
(rule 4's hysteresis), and `a` wins on a strictly higher score. -/
def betterAddr (a b : addrLatency) : Bool :=
  if b.addrPort.validB = false then a.addrPort.validB
  else if a.addrPort.validB = false then false
  else if a.addrPort = b.addrPort then false
  else
    let p := latPoints a b
    let q := if p.1 ≤ 1 ∧ p.2 ≤ 1 then ((0 : Nat), (0 : Nat)) else p
    decide (q.2 + typeBonus b < q.1 + typeBonus a)

/-- One nanosecond count per millisecond, for the test vectors. -/
def msec : Nat := 1000000

/-- The concrete addresses used by `TestBetterAddr`. -/
def publicV4 : AddrPort := { addr := { valid := true, is6 := false, isPrivate := false, ip := 1 }, port := 555 }

def publicV4alt : AddrPort := { addr := { valid := true, is6 := false, isPrivate := false, ip := 2 }, port := 999 }

def publicV6 : AddrPort := { addr := { valid := true, is6 := true, isPrivate := false, ip := 3 }, port := 123 }

def privateV4 : AddrPort := { addr := { valid := true, is6 := false, isPrivate := true, ip := 4 }, port := 123 }

def privateV4b : AddrPort := { addr := { valid := true, is6 := false, isPrivate := true, ip := 5 }, port := 555 }

def zeroAddrLatency : addrLatency := { addrPort := { addr := { valid := false, is6 := false, isPrivate := false, ip := 0 }, port := 0 }, latency := 0 }

-- The model reproduces every vector of TestBetterAddr
-- (src/wgengine/magicsock/magicsock_test.go lines 1645-1748).
example : betterAddr zeroAddrLatency zeroAddrLatency = false := by decide
example : betterAddr { addrPort := publicV4, latency := 5 * msec } zeroAddrLatency = true := by decide
example : betterAddr zeroAddrLatency { addrPort := publicV4, latency := 5 * msec } = false := by decide
example : betterAddr { addrPort := publicV4, latency := 5 * msec } { addrPort := publicV4alt, latency := 10 * msec } = true := by decide
example : betterAddr { addrPort := publicV4, latency := 5 * msec } { addrPort := publicV4, latency := 10 * msec } = false := by decide
example : betterAddr { addrPort := publicV4, latency := 100 * msec } { addrPort := publicV4alt, latency := 100 * msec } = false := by decide
example : betterAddr { addrPort := publicV4, latency := 100 * msec } { addrPort := publicV4alt, latency := 101 * msec } = false := by decide
example : betterAddr { addrPort := publicV4, latency := 100 * msec } { addrPort := publicV4alt, latency := 103 * msec } = true := by decide
example : betterAddr { addrPort := publicV4, latency := 0 } { addrPort := publicV4alt, latency := 0 } = false := by decide
example : betterAddr { addrPort := privateV4, latency := 100 * msec } { addrPort := publicV4, latency := 91 * msec } = true := by decide
example : betterAddr { addrPort := publicV4, latency := 91 * msec } { addrPort := privateV4, latency := 100 * msec } = false := by decide
example : betterAddr { addrPort := privateV4, latency := 100 * msec } { addrPort := publicV4, latency := 30 * msec } = false := by decide
example : betterAddr { addrPort := publicV4, latency := 30 * msec } { addrPort := privateV4, latency := 100 * msec } = true := by decide
example : betterAddr { addrPort := publicV6, latency := 100 * msec } { addrPort := publicV4, latency := 91 * msec } = true := by decide
example : betterAddr { addrPort := publicV4, latency := 91 * msec } { addrPort := publicV6, latency := 100 * msec } = false := by decide
example : betterAddr { addrPort := publicV6, latency := 100 * msec } { addrPort := publicV4, latency := 30 * msec } = false := by decide
example : betterAddr { addrPort := publicV4, latency := 30 * msec } { addrPort := publicV6, latency := 100 * msec } = true := by decide
example : betterAddr { addrPort := privateV4b, latency := 100 * msec } { addrPort := publicV6, latency := 101 * msec } = true := by decide
example : betterAddr { addrPort := publicV6, latency := 101 * msec } { addrPort := privateV4b, latency := 100 * msec } = false := by decide

/-- Swapping the arguments of `latPoints` swaps the score pair. -/
theorem latPoints_swap (a b : addrLatency) :
    latPoints b a = ((latPoints a b).2, (latPoints a b).1) := by
  unfold latPoints
  rcases Nat.lt_trichotomy a.latency b.latency with h | h | h
  · have h1 : ¬ (b.latency < a.latency ∧ 0 < a.latency) := by omega
    have h2 : a.latency < b.latency ∧ 0 < b.latency := by omega
    have h3 : 0 < b.latency := by omega
    simp only [if_pos h2, if_neg h1, if_pos h3]
  · have h1 : ¬ (b.latency < a.latency ∧ 0 < a.latency) := by omega
    have h2 : ¬ (a.latency < b.latency ∧ 0 < b.latency) := by omega
    simp only [if_neg h1, if_neg h2]
    by_cases h3 : 0 < b.latency
    · have h4 : 0 < a.latency := by omega
      have e1 : a.latency * 100 / b.latency = 100 := by
        rw [h]; exact Nat.mul_div_cancel_left 100 h3
      have e2 : b.latency * 100 / a.latency = 100 := by
        rw [h]; exact Nat.mul_div_cancel_left 100 h3
      simp [if_pos h3, if_pos h4, e1, e2]
    · have h4 : ¬ 0 < a.latency := by omega
      simp [if_neg h3, if_neg h4]
  · have h1 : b.latency < a.latency ∧ 0 < a.latency := by omega
    have h2 : ¬ (a.latency < b.latency ∧ 0 < b.latency) := by omega
    have h3 : 0 < a.latency := by omega
    simp only [if_pos h1, if_neg h2, if_pos h3]

/-- C1: for every pair of candidate addresses, with any combination of
latencies and address kinds (IPv4/IPv6, public/private, valid/unset),
`betterAddr a b` and `betterAddr b a` are never both true: the
"is strictly better" relation is asymmetric. -/
theorem C1_betterAddr_asymmetric (a b : addrLatency) :
    ¬ (betterAddr a b = true ∧ betterAddr b a = true) := by
  rintro ⟨hab, hba⟩
  unfold betterAddr at hab hba
  by_cases hbv : b.addrPort.validB = false
  · rw [if_pos hbv] at hab
    by_cases hav : a.addrPort.validB = false
    · rw [hav] at hab; exact Bool.false_ne_true hab
    · rw [if_neg hav, if_pos hbv] at hba; exact Bool.false_ne_true hba
  · rw [if_neg hbv] at hab
    by_cases hav : a.addrPort.validB = false
    · rw [if_pos hav] at hab; exact Bool.false_ne_true hab
    · rw [if_neg hav] at hab
      rw [if_neg hav, if_neg hbv] at hba
      by_cases heq : a.addrPort = b.addrPort
      · rw [if_pos heq] at hab; exact Bool.false_ne_true hab
      · have heq' : ¬ b.addrPort = a.addrPort := fun h => heq h.symm
        rw [if_neg heq] at hab
        · rw [if_neg heq'] at hba
          simp only [latPoints_swap a b] at hba
          by_cases hsmall : (latPoints a b).1 ≤ 1 ∧ (latPoints a b).2 ≤ 1
          · have hsmall' : (latPoints a b).2 ≤ 1 ∧ (latPoints a b).1 ≤ 1 :=
              ⟨hsmall.2, hsmall.1⟩
            simp only [if_pos hsmall, if_pos hsmall', decide_eq_true_eq] at hab hba
            omega
          · have hsmall' : ¬ ((latPoints a b).2 ≤ 1 ∧ (latPoints a b).1 ≤ 1) :=
              fun h => hsmall ⟨h.2, h.1⟩
            simp only [if_neg hsmall, if_neg hsmall', decide_eq_true_eq] at hab hba
            omega

/-! ## Conn.Send and the network-down short circuit -/

/-- Errors returned by the send path of `Conn` (magicsock.go):
`errNetworkDown`, `errConnClosed`, `errDropDerpPacket`, `errNoUDP`, or a
UDP write error, or no error at all. -/
inductive SendErr where
  | ok
  | networkDown
  | connClosed
  | dropDerpPacket
  | noUDP
  | udpWrite (code : Nat)
deriving DecidableEq

/-- Result of `Conn.Send`: either the hard `errNetworkDown` error, or
delegation to the target endpoint's `send` method with the given
buffers. -/
inductive SendAction where
  | errNetworkDown
  | endpointSend (ep : Nat) (buffs : Nat)
deriving DecidableEq

/-- `Conn.Send` (magicsock.go): bumps `metricSendData`; if
`c.networkDown()` (the atomic `networkUp` flag is false) it bumps
`metricSendDataNetworkDown` and returns `errNetworkDown`; otherwise it
calls `ep.(*endpoint).send(buffs)`.  `networkUp` is the flag, `ep` the
target endpoint, `buffs` the batch; counters are `(sendData,
sendDataNetworkDown)`. -/
def connSend (networkUp : Bool) (ep buffs : Nat) (ctr : Nat × Nat) :
    SendAction × (Nat × Nat) :=
  let n := buffs
  let ctr1 := (ctr.1 + n, ctr.2)
  if !networkUp then
    (SendAction.errNetworkDown, (ctr1.1, ctr1.2 + n))
  else
    (SendAction.endpointSend ep buffs, ctr1)

/-- C10: whenever the network is marked down, `Conn.Send` returns the
hard error `errNetworkDown` without delegating to any endpoint's send
path, regardless of the target peer. -/
theorem C10_send_network_down (ep buffs : Nat) (ctr : Nat × Nat) :
    (connSend false ep buffs ctr).1 = SendAction.errNetworkDown ∧
      ∀ e b, (connSend false ep buffs ctr).1 ≠ SendAction.endpointSend e b := by
  constructor
  · rfl
  · intro e b h
    simp [connSend] at h

/-! ## Conn.sendAddr and relay (DERP) backpressure -/

/-- `Conn.sendAddr` (magicsock.go), with its collaborators abstracted as
inputs: `addrIsDerpMagic` is `addr.Addr() == tailcfg.DerpMagicIPAddr`;
`chValid` is whether `derpWriteChanOfAddr` returned a non-nil channel;
`doneClosed` is whether the `c.donec` context channel is closed;
`queueFull` is whether the bounded DERP write channel has no free slot;
`udpResult` is the outcome `c.sendUDP` would produce for a non-DERP
address.  The Go `select` is embedded with the ready `donec` case taking
priority and the `default` (drop) case taken only when neither other
case is ready, which is the only deterministic refinement relevant here:
when the connection is not closed and the queue is full, only `default`
is ready. -/
def sendAddr (addrIsDerpMagic chValid doneClosed queueFull : Bool)
    (udpResult : Bool × SendErr) : Bool × SendErr :=
  if addrIsDerpMagic = false then udpResult
  else if chValid = false then (false, SendErr.ok)
  else if doneClosed then (false, SendErr.connClosed)
  else if queueFull = false then (true, SendErr.ok)
  else (false, SendErr.dropDerpPacket)

/-- C4: sending to a DERP address whose session write queue is full, on a
non-closed connection, drops the packet and returns immediately with the
distinguishable `errDropDerpPacket` outcome (sent = false), an error
distinct from both the closed-connection error and the plain success of
a UDP send. -/
theorem C4_sendAddr_queue_full_drops (udpResult : Bool × SendErr) :
    sendAddr true true false true udpResult = (false, SendErr.dropDerpPacket) ∧
      SendErr.dropDerpPacket ≠ SendErr.connClosed ∧
      SendErr.dropDerpPacket ≠ SendErr.ok := by
  refine ⟨rfl, ?_, ?_⟩ <;> intro h <;> cases h

/-! ## CallMeMaybe gating in Conn.handleDiscoMessage -/

/-- The observable outcome of the `disco.CallMeMaybe` case of
`Conn.handleDiscoMessage`: either one of its early-return drops, or the
spawn of `ep.handleCallMeMaybe` for the resolved endpoint. -/
inductive CMMAction where
  | dropNotDERP
  | dropUnknownPeer
  | dropNilEpDisco
  | dropBadDisco
  | dropBlockedEndpoints
  | handle (nodeKey : Nat)
deriving DecidableEq

/-- The client-metric counters touched by the CallMeMaybe case:
`magicsock_disco_recv_callmemaybe`, `..._bad_node`, `..._bad_disco`. -/
structure CMMCounters where
  recvCallMeMaybe : Nat
  badNode : Nat
  badDisco : Nat
deriving DecidableEq

/-- Inputs of the CallMeMaybe case of `Conn.handleDiscoMessage`
(magicsock.go): `isDERP` is `src.Addr() == tailcfg.DerpMagicIPAddr`;
`derpNodeSrc` is the relay-reported sender key (`none` for the zero
key); `epForNodeKey` is `c.peerMap.endpointForNodeKey derpNodeSrc`
(`none` if not ok), whose payload is the endpoint's `disco.Load()`
result (`none` when nil, otherwise the stored disco key); `diDiscoKey`
is `di.discoKey`, the disco key the message's sender sealed with;
`blockEndpoints` is the c.blockEndpoints flag. -/
structure CMMInput where
  isDERP : Bool
  derpNodeSrc : Option Nat
  epForNodeKey : Option (Option Nat)
  diDiscoKey : Nat
  blockEndpoints : Bool

/-- The `disco.CallMeMaybe` arm of `Conn.handleDiscoMessage`
(magicsock.go): bump `metricRecvDiscoCallMeMaybe`; drop unless the
message came via DERP with a non-zero relay-reported sender; drop
(counting `bad_node`) if that sender is not a known peer; drop if the
peer has no disco key loaded; drop (counting `bad_disco`) if the peer's
recorded disco key differs from the sender's sealing key; drop if
endpoints are blocked; otherwise hand off to `ep.handleCallMeMaybe`. -/
def handleCallMeMaybeCase (inp : CMMInput) (ctr : CMMCounters) :
    CMMAction × CMMCounters :=
  let ctr1 : CMMCounters :=
    { ctr with recvCallMeMaybe := ctr.recvCallMeMaybe + 1 }
  if inp.isDERP = false then (CMMAction.dropNotDERP, ctr1)
  else
    match inp.derpNodeSrc with
    | none => (CMMAction.dropNotDERP, ctr1)
    | some nk =>
      match inp.epForNodeKey with
      | none => (CMMAction.dropUnknownPeer, { ctr1 with badNode := ctr1.badNode + 1 })
      | some epDisco =>
        match epDisco with
        | none => (CMMAction.dropNilEpDisco, ctr1)
        | some k =>
          if k ≠ inp.diDiscoKey then
            (CMMAction.dropBadDisco, { ctr1 with badDisco := ctr1.badDisco + 1 })
          else if inp.blockEndpoints then (CMMAction.dropBlockedEndpoints, ctr1)
          else (CMMAction.handle nk, ctr1)

/-- Handing off to `ep.handleCallMeMaybe` requires a DERP arrival from a
known peer whose recorded disco key matches the sender's. -/
lemma cmm_handle_inv (inp : CMMInput) (ctr : CMMCounters) (nk : Nat)
    (hk : (handleCallMeMaybeCase inp ctr).1 = CMMAction.handle nk) :
    inp.isDERP = true ∧ inp.derpNodeSrc = some nk ∧
      inp.epForNodeKey = some (some inp.diDiscoKey) := by
  unfold handleCallMeMaybeCase at hk
  by_cases h1 : inp.isDERP = false
  · simp [h1] at hk
  · rw [if_neg h1] at hk
    rcases h2 : inp.derpNodeSrc with _ | nk2 <;> rw [h2] at hk
    · cases hk
    · rcases h3 : inp.epForNodeKey with _ | ⟨_ | k2⟩ <;> rw [h3] at hk
      · cases hk
      · cases hk
      · by_cases h4 : k2 = inp.diDiscoKey
        · subst h4
          simp only [ne_eq, not_true_eq_false, if_false] at hk
          by_cases h5 : inp.blockEndpoints
          · simp [h5] at hk
          · simp [h5] at hk
            subst hk
            have h1' : inp.isDERP = true := by
              cases hb : inp.isDERP
              · exact absurd hb h1
              · rfl
            exact ⟨h1', rfl, rfl⟩
        · simp [h4] at hk

/-- The CallMeMaybe receive counter is bumped in every case. -/
lemma cmm_counter_bumped (inp : CMMInput) (ctr : CMMCounters) :
    (handleCallMeMaybeCase inp ctr).2.recvCallMeMaybe =
      ctr.recvCallMeMaybe + 1 := by
  unfold handleCallMeMaybeCase
  by_cases h1 : inp.isDERP = false
  · simp [h1]
  · rw [if_neg h1]
    rcases h2 : inp.derpNodeSrc with _ | nk2
    · rfl
    · rcases h3 : inp.epForNodeKey with _ | ⟨_ | k2⟩
      · rfl
      · rfl
      · by_cases h4 : k2 = inp.diDiscoKey
        · subst h4
          simp only [ne_eq, not_true_eq_false, if_false]
          by_cases h5 : inp.blockEndpoints <;> simp [h5]
        · simp [h4]

/-- C2: a CallMeMaybe that did not arrive via DERP, or whose
relay-reported sender is unknown, or whose sender's disco key does not
match the disco key recorded for that peer, is dropped (and the receive
counter is still bumped, nothing is handed to endpoint handling); and
endpoint handling is triggered only for a CallMeMaybe arriving over DERP
from a known peer whose recorded disco key equals the sender's. -/
theorem C2_callMeMaybe_gating (inp : CMMInput) (ctr : CMMCounters)
    (hdrop : inp.isDERP = false ∨ inp.derpNodeSrc = none ∨
      inp.epForNodeKey = none ∨ inp.epForNodeKey = some none ∨
      ∃ k, inp.epForNodeKey = some (some k) ∧ k ≠ inp.diDiscoKey) :
    ((∀ nk, (handleCallMeMaybeCase inp ctr).1 ≠ CMMAction.handle nk) ∧
      (handleCallMeMaybeCase inp ctr).2.recvCallMeMaybe =
        ctr.recvCallMeMaybe + 1) ∧
    ∀ inp' : CMMInput, ∀ nk,
      (handleCallMeMaybeCase inp' ctr).1 = CMMAction.handle nk →
        inp'.isDERP = true ∧ inp'.derpNodeSrc = some nk ∧
          inp'.epForNodeKey = some (some inp'.diDiscoKey) := by
  refine ⟨⟨?_, cmm_counter_bumped inp ctr⟩, fun inp' nk hk => cmm_handle_inv inp' ctr nk hk⟩
  intro nk hk
  obtain ⟨h1, h2, h3⟩ := cmm_handle_inv inp ctr nk hk
  rcases hdrop with h | h | h | h | ⟨k, hk', hne⟩
  · rw [h1] at h; cases h
  · rw [h2] at h; cases h
  · rw [h3] at h; cases h
  · rw [h3] at h; cases h
  · rw [h3] at hk'
    have := Option.some.inj (Option.some.inj hk')
    exact hne this.symm

/-- Witness for C2 at a concrete dropped input: a CallMeMaybe arriving
over a direct UDP path is dropped and counted. -/
theorem C2_callMeMaybe_gating_witness :
    ((∀ nk, (handleCallMeMaybeCase
        { isDERP := false, derpNodeSrc := some 7, epForNodeKey := some (some 3),
          diDiscoKey := 3, blockEndpoints := false }
        { recvCallMeMaybe := 0, badNode := 0, badDisco := 0 }).1 ≠
          CMMAction.handle nk) ∧
      (handleCallMeMaybeCase
        { isDERP := false, derpNodeSrc := some 7, epForNodeKey := some (some 3),
          diDiscoKey := 3, blockEndpoints := false }
        { recvCallMeMaybe := 0, badNode := 0, badDisco := 0 }).2.recvCallMeMaybe =
        0 + 1) ∧
    ∀ inp' : CMMInput, ∀ nk,
      (handleCallMeMaybeCase inp'
        { recvCallMeMaybe := 0, badNode := 0, badDisco := 0 }).1 =
          CMMAction.handle nk →
        inp'.isDERP = true ∧ inp'.derpNodeSrc = some nk ∧
          inp'.epForNodeKey = some (some inp'.diDiscoKey) :=
  C2_callMeMaybe_gating
    { isDERP := false, derpNodeSrc := some 7, epForNodeKey := some (some 3),
      diDiscoKey := 3, blockEndpoints := false }
    { recvCallMeMaybe := 0, badNode := 0, badDisco := 0 }
    (Or.inl rfl)

/-! ## Conn state: endpoint-update single-flight, periodic re-STUN, Close -/

/-- `sessionActiveTimeout` (magicsock.go): 45 seconds, in nanoseconds. -/
def sessionActiveTimeout : Nat := 45 * 1000000000

/-- The fields of `Conn` (magicsock.go) consulted by `ReSTUN`,
`updateEndpoints`' deferred epilogue, `shouldDoPeriodicReSTUNLocked`,
`Close` and `goroutinesRunningLocked`.  `idleFor` is `none` when
`c.idleFunc` is nil, otherwise the duration it reports (nanoseconds);
`netMapDebugForceBackgroundSTUN` is `none` when `c.netMap` or
`c.netMap.Debug` is nil, otherwise the `ForceBackgroundSTUN` flag;
`periodicReSTUNTimer` is `none` when the timer is nil/stopped, otherwise
the duration it was (re)armed with; `activeDerpInitialized` is
`c.activeDerp != nil`; `derpStartedClosed` is whether the `derpStarted`
channel has been closed; `connCtxCancelled`, `pconn4Closed`,
`pconn6Closed` record the context cancellation and UDP socket closes
that unblock readers. -/
structure ConnState where
  closed : Bool
  closing : Bool
  endpointsUpdateActive : Bool
  wantEndpointsUpdate : String
  privateKeyZero : Bool
  everHadKey : Bool
  networkUp : Bool
  peerSetSize : Nat
  idleFor : Option Nat
  netMapDebugForceBackgroundSTUN : Option Bool
  periodicReSTUNTimer : Option Nat
  activeDerpInitialized : Bool
  derpStartedClosed : Bool
  connCtxCancelled : Bool
  pconn4Closed : Bool
  pconn6Closed : Bool
deriving DecidableEq

/-- `Conn.shouldDoPeriodicReSTUNLocked` (magicsock.go): false when the
network is down, when there are no peers, or when the private key is
zero; when an idle func reports idleness beyond `sessionActiveTimeout`,
true only if control overrides with `Debug.ForceBackgroundSTUN`;
otherwise true. -/
def shouldDoPeriodicReSTUNLocked (s : ConnState) : Bool :=
  if s.networkUp = false then false
  else if s.peerSetSize = 0 || s.privateKeyZero then false
  else
    match s.idleFor with
    | some idle =>
      if sessionActiveTimeout < idle then
        match s.netMapDebugForceBackgroundSTUN with
        | some f => f
        | none => false
      else true
    | none => true

/-- The scheduling condition as the claim states it: network up, a
non-empty peer set, a non-zero private key, and not idle longer than
`sessionActiveTimeout` unless control overrides idleness with
`ForceBackgroundSTUN`. -/
def claimPeriodicCondition (s : ConnState) : Bool :=
  s.networkUp && decide (s.peerSetSize ≠ 0) && !s.privateKeyZero &&
    (match s.idleFor with
     | some idle =>
       decide (idle ≤ sessionActiveTimeout) ||
         decide (s.netMapDebugForceBackgroundSTUN = some true)
     | none => true)

/-- `Conn.ReSTUN` (magicsock.go).  Returns the new state and whether a
new `updateEndpoints` goroutine was spawned.  A closed conn returns at
once; a stopped conn (zero private key after ever having had one)
returns at once; while an update is active the reason is recorded in
`wantEndpointsUpdate` instead of spawning; otherwise
`endpointsUpdateActive` is set and an update is spawned. -/
def ReSTUN (s : ConnState) (why : String) : ConnState × Bool :=
  if s.closed then (s, false)
  else if s.privateKeyZero && s.everHadKey then (s, false)
  else if s.endpointsUpdateActive then
    (if s.wantEndpointsUpdate ≠ why then { s with wantEndpointsUpdate := why }
     else s, false)
  else ({ s with endpointsUpdateActive := true }, true)

/-- The deferred epilogue of `Conn.updateEndpoints` (magicsock.go): read
and clear `wantEndpointsUpdate`; if the conn is not closed, either spawn
exactly the one wanted follow-up update (leaving
`endpointsUpdateActive` set for it) or, after rescheduling or stopping
the periodic re-STUN timer, clear `endpointsUpdateActive`.  `d` is the
value of `tstime.RandomDurationBetween(20s, 26s)`.  Returns the new
state and whether a follow-up `updateEndpoints` was spawned. -/
def updateEndpointsFinish (s : ConnState) (d : Nat) : ConnState × Bool :=
  if ({ s with wantEndpointsUpdate := "" } : ConnState).closed = false then
    if s.wantEndpointsUpdate ≠ "" then ({ s with wantEndpointsUpdate := "" }, true)
    else if shouldDoPeriodicReSTUNLocked { s with wantEndpointsUpdate := "" } then
      ({ s with wantEndpointsUpdate := "", periodicReSTUNTimer := some d,
                endpointsUpdateActive := false }, false)
    else
      ({ s with wantEndpointsUpdate := "", periodicReSTUNTimer := none,
                endpointsUpdateActive := false }, false)
  else ({ s with wantEndpointsUpdate := "", endpointsUpdateActive := false }, false)

/-- `Conn.goroutinesRunningLocked` (magicsock.go): true while the
endpoint updater is active, or while the first DERP connect goroutine
(spawned by `derpWriteChanOfAddr`, detected via a non-nil `activeDerp`)
has not yet closed `derpStarted`. -/
def goroutinesRunningLocked (s : ConnState) : Bool :=
  if s.endpointsUpdateActive then true
  else if s.activeDerpInitialized && !s.derpStartedClosed then true
  else false

/-- The mutations the first `Conn.Close` performs before its wait loop
(magicsock.go): set `closing`, stop the periodic re-STUN timer, mark
closed, cancel the conn context and close both UDP sockets (unblocking
all blocked reads).  `closeAllDerpLocked` tears the DERP connections
down without nilling the `activeDerp` map, so `activeDerpInitialized`
and `derpStartedClosed` are untouched here. -/
def closeBody (s : ConnState) : ConnState :=
  { s with closing := true,
           periodicReSTUNTimer := none,
           closed := true,
           connCtxCancelled := true,
           pconn4Closed := true,
           pconn6Closed := true }

/-- The background completions `Close`'s `muCond` wait loop can observe:
the endpoint updater running its deferred epilogue, or the initial DERP
connect goroutine closing `derpStarted`. -/
inductive BgEvent where
  | endpointUpdateDone (d : Nat)
  | derpConnectFinished
deriving DecidableEq

/-- Effect of one background completion on the conn state. -/
def applyBg : BgEvent → ConnState → ConnState
  | BgEvent.endpointUpdateDone d, s => (updateEndpointsFinish s d).1
  | BgEvent.derpConnectFinished, s => { s with derpStartedClosed := true }

/-- The wait loop of `Conn.Close`: block on `muCond` (observing one
background completion per iteration) until `goroutinesRunningLocked` is
false.  `none` models a Close that is still blocked after every supplied
completion. -/
def closeWait : List BgEvent → ConnState → Option ConnState
  | [], s => if goroutinesRunningLocked s = false then some s else none
  | e :: rest, s =>
    if goroutinesRunningLocked s = false then some s
    else closeWait rest (applyBg e s)

/-- `Conn.Close` (magicsock.go): only the first close does anything and
any later close returns nil immediately with no state change; the first
close runs `closeBody` and then waits for the spawned goroutines.  The
Go return value is nil on every path, so the model returns just the
final state (or `none` while still blocked in the wait loop). -/
def connClose (s : ConnState) (evs : List BgEvent) : Option ConnState :=
  if s.closed then some s
  else closeWait evs (closeBody s)

/-- Neither background completion changes the closed/cancelled/socket
fields of the state. -/
lemma applyBg_preserves (e : BgEvent) (s : ConnState) :
    (applyBg e s).closed = s.closed ∧
      (applyBg e s).connCtxCancelled = s.connCtxCancelled ∧
      (applyBg e s).pconn4Closed = s.pconn4Closed ∧
      (applyBg e s).pconn6Closed = s.pconn6Closed := by
  cases e with
  | endpointUpdateDone d =>
    simp only [applyBg, updateEndpointsFinish]
    split
    · split
      · exact ⟨rfl, rfl, rfl, rfl⟩
      · split <;> exact ⟨rfl, rfl, rfl, rfl⟩
    · exact ⟨rfl, rfl, rfl, rfl⟩
  | derpConnectFinished => exact ⟨rfl, rfl, rfl, rfl⟩

/-- Whatever state the wait loop returns in satisfies its exit condition
and kept the closed/cancelled/socket fields of its entry state. -/
lemma closeWait_spec (evs : List BgEvent) (s s' : ConnState)
    (h : closeWait evs s = some s') :
    goroutinesRunningLocked s' = false ∧
      s'.closed = s.closed ∧ s'.connCtxCancelled = s.connCtxCancelled ∧
      s'.pconn4Closed = s.pconn4Closed ∧ s'.pconn6Closed = s.pconn6Closed := by
  induction evs generalizing s with
  | nil =>
    unfold closeWait at h
    split at h
    · cases h
      exact ⟨by assumption, rfl, rfl, rfl, rfl⟩
    · cases h
  | cons e rest ih =>
    unfold closeWait at h
    split at h
    · cases h
      exact ⟨by assumption, rfl, rfl, rfl, rfl⟩
    · obtain ⟨h1, h2, h3, h4, h5⟩ := ih (applyBg e s) h
      obtain ⟨p1, p2, p3, p4⟩ := applyBg_preserves e s
      exact ⟨h1, h2.trans p1, h3.trans p2, h4.trans p3, h5.trans p4⟩

/-- C5 (amended scope none needed): `Conn.Close` is idempotent — a
second call returns immediately with no state change — and a completing
first call leaves the conn closed, the context cancelled and both UDP
sockets closed (unblocking blocked reads), and returns only once no
spawned background goroutine (endpoint updater, initial DERP connect) is
still running. -/
theorem C5_close_idempotent_unblocks_waits (s : ConnState) (evs : List BgEvent) :
    (s.closed = true → connClose s evs = some s) ∧
      (s.closed = false → ∀ s', connClose s evs = some s' →
        s'.closed = true ∧ s'.connCtxCancelled = true ∧
          s'.pconn4Closed = true ∧ s'.pconn6Closed = true ∧
          goroutinesRunningLocked s' = false) := by
  constructor
  · intro h
    unfold connClose
    rw [if_pos h]
  · intro h s' h'
    unfold connClose at h'
    rw [if_neg (by rw [h]; exact Bool.false_ne_true)] at h'
    obtain ⟨h1, h2, h3, h4, h5⟩ := closeWait_spec evs (closeBody s) s' h'
    exact ⟨h2, h3, h4, h5, h1⟩

/-- A conn that has never been closed, with no update in flight and no
DERP connect spawned. -/
def openConnExample : ConnState :=
  { closed := false, closing := false, endpointsUpdateActive := false,
    wantEndpointsUpdate := "", privateKeyZero := false, everHadKey := true,
    networkUp := true, peerSetSize := 1, idleFor := none,
    netMapDebugForceBackgroundSTUN := none, periodicReSTUNTimer := none,
    activeDerpInitialized := false, derpStartedClosed := false,
    connCtxCancelled := false, pconn4Closed := false, pconn6Closed := false }

/-- The same conn after a completed close. -/
def closedConnExample : ConnState := closeBody openConnExample

/-- Witness for C5 at concrete states: a second Close on an
already-closed conn is a no-op, and a first Close on an idle open conn
returns with everything shut down and no goroutine running. -/
theorem C5_close_witness :
    (connClose closedConnExample [] = some closedConnExample) ∧
      ((closeBody openConnExample).closed = true ∧
        (closeBody openConnExample).connCtxCancelled = true ∧
        (closeBody openConnExample).pconn4Closed = true ∧
        (closeBody openConnExample).pconn6Closed = true ∧
        goroutinesRunningLocked (closeBody openConnExample) = false) :=
  ⟨(C5_close_idempotent_unblocks_waits closedConnExample []).1 rfl,
    (C5_close_idempotent_unblocks_waits openConnExample []).2 rfl
      (closeBody openConnExample) rfl⟩

/-- C3 (amended): on a conn that is not closed and not stopped (it has a
private key, or never had one), at most one endpoint-discovery pass runs
at a time with latest-request-wins chaining: `ReSTUN` during an active
update spawns nothing and records the wanted reason; when the running
`updateEndpoints` finishes with a recorded want it spawns exactly one
follow-up and clears the want (leaving the active flag set for the
follow-up); and `ReSTUN` with no active update spawns exactly one
update. -/
theorem C3_restun_single_flight (s : ConnState) (why : String) (d : Nat)
    (hclosed : s.closed = false)
    (hkey : ¬ (s.privateKeyZero = true ∧ s.everHadKey = true)) :
    (s.endpointsUpdateActive = true →
      (ReSTUN s why).2 = false ∧
        (ReSTUN s why).1.wantEndpointsUpdate = why ∧
        (ReSTUN s why).1.endpointsUpdateActive = true) ∧
    (s.endpointsUpdateActive = false →
      (ReSTUN s why).2 = true ∧
        (ReSTUN s why).1.endpointsUpdateActive = true) ∧
    (s.wantEndpointsUpdate ≠ "" →
      (updateEndpointsFinish s d).2 = true ∧
        (updateEndpointsFinish s d).1.wantEndpointsUpdate = "" ∧
        (updateEndpointsFinish s d).1.endpointsUpdateActive =
          s.endpointsUpdateActive) ∧
    (s.wantEndpointsUpdate = "" → (updateEndpointsFinish s d).2 = false) := by
  have hkey' : ¬ (s.privateKeyZero && s.everHadKey) = true := by
    intro h
    exact hkey ⟨(Bool.and_eq_true _ _ |>.mp h).1, (Bool.and_eq_true _ _ |>.mp h).2⟩
  have hclosed' : ¬ s.closed = true := by rw [hclosed]; exact Bool.false_ne_true
  refine ⟨?_, ?_, ?_, ?_⟩
  · intro hact
    unfold ReSTUN
    rw [if_neg hclosed', if_neg hkey', if_pos hact]
    by_cases hw : s.wantEndpointsUpdate ≠ why
    · rw [if_pos hw]
      exact ⟨rfl, rfl, hact⟩
    · rw [if_neg hw]
      push_neg at hw
      exact ⟨rfl, hw, hact⟩
  · intro hact
    unfold ReSTUN
    rw [if_neg hclosed', if_neg hkey', if_neg (by rw [hact]; exact Bool.false_ne_true)]
    exact ⟨rfl, rfl⟩
  · intro hwant
    unfold updateEndpointsFinish
    rw [if_pos (show ({ s with wantEndpointsUpdate := "" } : ConnState).closed = false from hclosed)]
    rw [if_pos hwant]
    exact ⟨rfl, rfl, rfl⟩
  · intro hwant
    unfold updateEndpointsFinish
    rw [if_pos (show ({ s with wantEndpointsUpdate := "" } : ConnState).closed = false from hclosed)]
    rw [if_neg (fun hne => hne hwant)]
    split <;> rfl

/-- The claim as stated fails on a closed conn: no update is active, yet
`ReSTUN` does not start one (it returns without any state change). -/
theorem C3_counterexample :
    closedConnExample.endpointsUpdateActive = false ∧
      (ReSTUN closedConnExample "periodic").2 = false ∧
      (ReSTUN closedConnExample "periodic").1 = closedConnExample := by
  refine ⟨rfl, rfl, rfl⟩

/-- An open conn with an endpoint update in flight and a recorded want. -/
def busyConnExample : ConnState :=
  { openConnExample with endpointsUpdateActive := true,
                         wantEndpointsUpdate := "link-change" }

/-- Witness for C3 at a concrete busy conn: `ReSTUN` records instead of
spawning, and the finishing update chains exactly one follow-up. -/
theorem C3_restun_witness :
    (busyConnExample.endpointsUpdateActive = true →
      (ReSTUN busyConnExample "periodic").2 = false ∧
        (ReSTUN busyConnExample "periodic").1.wantEndpointsUpdate = "periodic" ∧
        (ReSTUN busyConnExample "periodic").1.endpointsUpdateActive = true) ∧
    (busyConnExample.endpointsUpdateActive = false →
      (ReSTUN busyConnExample "periodic").2 = true ∧
        (ReSTUN busyConnExample "periodic").1.endpointsUpdateActive = true) ∧
    (busyConnExample.wantEndpointsUpdate ≠ "" →
      (updateEndpointsFinish busyConnExample 0).2 = true ∧
        (updateEndpointsFinish busyConnExample 0).1.wantEndpointsUpdate = "" ∧
        (updateEndpointsFinish busyConnExample 0).1.endpointsUpdateActive =
          busyConnExample.endpointsUpdateActive) ∧
    (busyConnExample.wantEndpointsUpdate = "" →
      (updateEndpointsFinish busyConnExample 0).2 = false) :=
  C3_restun_single_flight busyConnExample "periodic" 0 rfl
    (fun h => Bool.false_ne_true h.1)

/-- The code's periodic-reSTUN predicate coincides with the claim's
condition. -/
lemma shouldDoPeriodic_eq_claim (s : ConnState) :
    shouldDoPeriodicReSTUNLocked s = claimPeriodicCondition s := by
  unfold shouldDoPeriodicReSTUNLocked claimPeriodicCondition
  cases hn : s.networkUp
  · simp
  · by_cases hp : s.peerSetSize = 0
    · simp [hp]
    · cases hz : s.privateKeyZero
      · rcases hi : s.idleFor with _ | idle
        · simp [hp, hi]
        · by_cases hgt : sessionActiveTimeout < idle
          · have hle : ¬ idle ≤ sessionActiveTimeout := by omega
            rcases hd : s.netMapDebugForceBackgroundSTUN with _ | f
            · simp [hp, hi, hgt, hle, hd]
            · cases f <;> simp [hp, hi, hgt, hle, hd]
          · have hle : idle ≤ sessionActiveTimeout := by omega
            simp [hp, hi, hgt, hle]
      · simp [hp, hz]

/-- C9: when an endpoint update finishes on a non-closed conn with no
follow-up wanted, the periodic re-STUN timer is armed with the random
duration `d` (drawn between 20 and 26 seconds) exactly when the network
is up, the peer set is non-empty, the private key is non-zero, and the
conn is not idle beyond `sessionActiveTimeout` unless control overrides
with `ForceBackgroundSTUN`; otherwise the timer is stopped.  The code's
predicate equals the claim's condition. -/
theorem C9_periodic_rescheduling (s : ConnState) (d : Nat)
    (hclosed : s.closed = false) (hwant : s.wantEndpointsUpdate = "")
    (hd1 : 20 * 1000000000 ≤ d) (hd2 : d ≤ 26 * 1000000000) :
    ((updateEndpointsFinish s d).1.periodicReSTUNTimer =
      if claimPeriodicCondition s then some d else none) ∧
      shouldDoPeriodicReSTUNLocked s = claimPeriodicCondition s := by
  refine ⟨?_, shouldDoPeriodic_eq_claim s⟩
  have hkey : shouldDoPeriodicReSTUNLocked { s with wantEndpointsUpdate := "" } =
      claimPeriodicCondition s :=
    (rfl : shouldDoPeriodicReSTUNLocked { s with wantEndpointsUpdate := "" } =
        shouldDoPeriodicReSTUNLocked s).trans (shouldDoPeriodic_eq_claim s)
  unfold updateEndpointsFinish
  rw [if_pos (show ({ s with wantEndpointsUpdate := "" } : ConnState).closed = false from hclosed)]
  rw [if_neg (fun hne => hne hwant)]
  by_cases hcond : shouldDoPeriodicReSTUNLocked { s with wantEndpointsUpdate := "" } = true
  · rw [if_pos hcond, if_pos (hkey ▸ hcond)]
  · rw [if_neg hcond, if_neg (fun hc => hcond (by rw [hkey]; exact hc))]

/-- Witness for C9 at a concrete conn: an idle-free, one-peer, keyed,
network-up conn gets its periodic timer armed with the drawn duration. -/
theorem C9_periodic_witness :
    ((updateEndpointsFinish openConnExample (20 * 1000000000)).1.periodicReSTUNTimer =
      if claimPeriodicCondition openConnExample then some (20 * 1000000000)
      else none) ∧
      shouldDoPeriodicReSTUNLocked openConnExample =
        claimPeriodicCondition openConnExample :=
  C9_periodic_rescheduling openConnExample (20 * 1000000000) rfl rfl
    (Nat.le_refl _) (by omega)

/-! ## endpointTracker -/

/-- `endpointTrackerLifetime` (magicsock.go): 5 minutes 10 seconds, in
nanoseconds. -/
def endpointTrackerLifetime : Nat := 310 * 1000000000

/-- `tailcfg.Endpoint`: an advertised endpoint, abstracted to its
address (`Addr`, comparable) and its endpoint type tag. -/
structure TailcfgEndpoint where
  addr : Nat
  typ : Nat
deriving DecidableEq

/-- `endpointTrackerEntry` (magicsock.go): a cached endpoint and its
expiry time (Go field `until`, here `untilT`). -/
structure endpointTrackerEntry where
  endpoint : TailcfgEndpoint
  untilT : Nat
deriving DecidableEq

/-- The `endpointTracker.cache` map (`map[netip.AddrPort]
endpointTrackerEntry`), embedded as an association list keyed by
address; Go map iteration order is unspecified, the list order is this
embedding's determinization. -/
def TrackerCache := List (Nat × endpointTrackerEntry)

/-- `endpointTracker.addLocked` (magicsock.go): if an entry for the
endpoint's address exists, update its timeout (keeping the cached
endpoint value); otherwise add a new entry. -/
def addLocked (cache : List (Nat × endpointTrackerEntry))
    (ep : TailcfgEndpoint) (untilT : Nat) : List (Nat × endpointTrackerEntry) :=
  if (cache.find? (fun e => e.1 == ep.addr)).isSome then
    cache.map (fun e => if e.1 == ep.addr then (e.1, { e.2 with untilT := untilT }) else e)
  else cache ++ [(ep.addr, { endpoint := ep, untilT := untilT })]

/-- `endpointTracker.removeExpiredLocked` (magicsock.go): drop every
entry whose expiry is strictly in the past (`now.After(ep.until)`). -/
def removeExpiredLocked (now : Nat) (cache : List (Nat × endpointTrackerEntry)) :
    List (Nat × endpointTrackerEntry) :=
  cache.filter (fun e => !decide (e.2.untilT < now))

/-- `endpointTracker.update` (magicsock.go): return the input endpoints
plus every cached entry that is neither in the input (by address) nor
expired; then re-insert every input endpoint with expiry
`now + endpointTrackerLifetime` and drop expired entries.  Returns
`(epsPlusCached, new cache)`. -/
def trackerUpdate (cache : List (Nat × endpointTrackerEntry)) (now : Nat)
    (eps : List TailcfgEndpoint) :
    List TailcfgEndpoint × List (Nat × endpointTrackerEntry) :=
  let inputEps := eps.map (fun ep => ep.addr)
  let epsPlusCached := eps ++
    (cache.filter (fun e => !decide (e.1 ∈ inputEps) && !decide (e.2.untilT < now))).map
      (fun e => e.2.endpoint)
  let cache1 := eps.foldl
    (fun c ep => addLocked c ep (now + endpointTrackerLifetime)) cache
  (epsPlusCached, removeExpiredLocked now cache1)

/-- After `addLocked`, some entry carries the endpoint's address. -/
lemma addLocked_key_self (c : List (Nat × endpointTrackerEntry))
    (ep : TailcfgEndpoint) (u : Nat) :
    ∃ kv ∈ addLocked c ep u, kv.1 = ep.addr := by
  unfold addLocked
  split
  · rename_i hfound
    rw [Option.isSome_iff_exists] at hfound
    obtain ⟨kv0, hkv0⟩ := hfound
    have hmem := List.mem_of_find?_eq_some hkv0
    have hpred := List.find?_some hkv0
    have hkey : kv0.1 = ep.addr := by simpa using hpred
    refine ⟨(kv0.1, { kv0.2 with untilT := u }), ?_, hkey⟩
    have : (fun e => if e.1 == ep.addr then (e.1, { e.2 with untilT := u }) else e) kv0 =
        (kv0.1, { kv0.2 with untilT := u }) := by
      simp [hkey]
    exact this ▸ List.mem_map_of_mem _ hmem
  · exact ⟨(ep.addr, { endpoint := ep, untilT := u }), by simp, rfl⟩

/-- `addLocked` keeps every existing address present. -/
lemma addLocked_key_mono (c : List (Nat × endpointTrackerEntry))
    (ep : TailcfgEndpoint) (u a : Nat) (h : ∃ kv ∈ c, kv.1 = a) :
    ∃ kv ∈ addLocked c ep u, kv.1 = a := by
  obtain ⟨kv, hmem, hkey⟩ := h
  unfold addLocked
  split
  · by_cases hk : kv.1 = ep.addr
    · refine ⟨(kv.1, { kv.2 with untilT := u }), ?_, hkey⟩
      have : (fun e => if e.1 == ep.addr then (e.1, { e.2 with untilT := u }) else e) kv =
          (kv.1, { kv.2 with untilT := u }) := by simp [hk]
      exact this ▸ List.mem_map_of_mem _ hmem
    · refine ⟨kv, ?_, hkey⟩
      have : (fun e => if e.1 == ep.addr then (e.1, { e.2 with untilT := u }) else e) kv =
          kv := by simp [hk]
      exact this ▸ List.mem_map_of_mem _ hmem
  · exact ⟨kv, List.mem_append_left _ hmem, hkey⟩

/-- After `addLocked` with timeout `u`, every entry at the endpoint's
own address has timeout `u`. -/
lemma addLocked_untilT_self (c : List (Nat × endpointTrackerEntry))
    (ep : TailcfgEndpoint) (u : Nat) :
    ∀ kv ∈ addLocked c ep u, kv.1 = ep.addr → kv.2.untilT = u := by
  intro kv hkv hkey
  unfold addLocked at hkv
  split at hkv
  · obtain ⟨kv0, hkv0, heq⟩ := List.mem_map.mp hkv
    by_cases hk : kv0.1 = ep.addr
    · rw [if_pos (by simpa using hk)] at heq
      rw [← heq]
    · rw [if_neg (by simpa using hk)] at heq
      rw [← heq] at hkey
      exact absurd hkey hk
  · rename_i hnone
    rcases List.mem_append.mp hkv with hin | hin
    · have : (c.find? (fun e => e.1 == ep.addr)).isSome := by
        rw [Option.isSome_iff_exists]
        have : ∃ x, x ∈ c ∧ (fun e => e.1 == ep.addr) x = true :=
          ⟨kv, hin, by simpa using hkey⟩
        obtain ⟨x, hx, hpx⟩ := this
        rcases hf : c.find? (fun e => e.1 == ep.addr) with _ | y
        · rw [List.find?_eq_none] at hf
          exact absurd hpx (hf x hx)
        · exact ⟨y, hf⟩
      exact absurd this hnone
    · simp only [List.mem_singleton] at hin
      rw [hin]

/-- `addLocked` with timeout `u` preserves "every entry at address `a`
has timeout `u`". -/
lemma addLocked_untilT_inv (c : List (Nat × endpointTrackerEntry))
    (ep : TailcfgEndpoint) (u a : Nat)
    (h : ∀ kv ∈ c, kv.1 = a → kv.2.untilT = u) :
    ∀ kv ∈ addLocked c ep u, kv.1 = a → kv.2.untilT = u := by
  intro kv hkv hkey
  unfold addLocked at hkv
  split at hkv
  · obtain ⟨kv0, hkv0, heq⟩ := List.mem_map.mp hkv
    by_cases hk : kv0.1 = ep.addr
    · rw [if_pos (by simpa using hk)] at heq
      rw [← heq]
    · rw [if_neg (by simpa using hk)] at heq
      rw [← heq]
      rw [← heq] at hkey
      exact h kv0 hkv0 hkey
  · rcases List.mem_append.mp hkv with hin | hin
    · exact h kv hin hkey
    · simp only [List.mem_singleton] at hin
      rw [hin]

/-- Folding `addLocked` keeps every existing address present. -/
lemma foldAdd_key_pres (eps : List TailcfgEndpoint)
    (c : List (Nat × endpointTrackerEntry)) (u a : Nat)
    (h : ∃ kv ∈ c, kv.1 = a) :
    ∃ kv ∈ eps.foldl (fun c ep => addLocked c ep u) c, kv.1 = a := by
  induction eps generalizing c with
  | nil => exact h
  | cons e rest ih => exact ih (addLocked c e u) (addLocked_key_mono c e u a h)

/-- Folding `addLocked` with timeout `u` preserves "every entry at
address `a` has timeout `u`". -/
lemma foldAdd_untilT_pres (eps : List TailcfgEndpoint)
    (c : List (Nat × endpointTrackerEntry)) (u a : Nat)
    (h : ∀ kv ∈ c, kv.1 = a → kv.2.untilT = u) :
    ∀ kv ∈ eps.foldl (fun c ep => addLocked c ep u) c, kv.1 = a →
      kv.2.untilT = u := by
  induction eps generalizing c with
  | nil => exact h
  | cons e rest ih => exact ih (addLocked c e u) (addLocked_untilT_inv c e u a h)

/-- After the re-insertion fold of `trackerUpdate`, every address of the
input list is present in the cache. -/
lemma foldAdd_key_exists (eps : List TailcfgEndpoint)
    (c : List (Nat × endpointTrackerEntry)) (u : Nat) (ep : TailcfgEndpoint)
    (h : ep ∈ eps) :
    ∃ kv ∈ eps.foldl (fun c ep => addLocked c ep u) c, kv.1 = ep.addr := by
  induction eps generalizing c with
  | nil => cases h
  | cons e rest ih =>
    rcases List.mem_cons.mp h with he | he
    · subst he
      exact foldAdd_key_pres rest (addLocked c ep u) u ep.addr
        (addLocked_key_self c ep u)
    · exact ih (addLocked c e u) he

/-- After the re-insertion fold of `trackerUpdate`, every cache entry at
an input address carries the fold's timeout. -/
lemma foldAdd_untilT (eps : List TailcfgEndpoint)
    (c : List (Nat × endpointTrackerEntry)) (u : Nat) (a : Nat)
    (h : a ∈ eps.map (fun ep => ep.addr)) :
    ∀ kv ∈ eps.foldl (fun c ep => addLocked c ep u) c, kv.1 = a →
      kv.2.untilT = u := by
  induction eps generalizing c with
  | nil => cases h
  | cons e rest ih =>
    rw [List.map_cons] at h
    rcases List.mem_cons.mp h with he | he
    · subst he
      exact foldAdd_untilT_pres rest (addLocked c e u) u e.addr
        (addLocked_untilT_self c e u)
    · exact ih (addLocked c e u) he

/-- Folding `addLocked` over endpoints with pairwise-distinct addresses,
starting from a cache containing none of them, appends one fresh entry
per endpoint in order. -/
lemma foldAdd_nodup (eps : List TailcfgEndpoint)
    (acc : List (Nat × endpointTrackerEntry)) (u : Nat)
    (hnodup : (eps.map (fun ep => ep.addr)).Nodup)
    (hd : ∀ kv ∈ acc, ¬ kv.1 ∈ eps.map (fun ep => ep.addr)) :
    eps.foldl (fun c ep => addLocked c ep u) acc =
      acc ++ eps.map (fun ep => (ep.addr, { endpoint := ep, untilT := u })) := by
  induction eps generalizing acc with
  | nil => simp
  | cons e rest ih =>
    have hfresh : (acc.find? (fun x => x.1 == e.addr)) = none := by
      rw [List.find?_eq_none]
      intro x hx
      simp only [beq_iff_eq]
      intro hxe
      exact hd x hx (by simp [hxe])
    have hstep : addLocked acc e u =
        acc ++ [(e.addr, { endpoint := e, untilT := u })] := by
      unfold addLocked
      rw [hfresh]
      rfl
    rw [List.map_cons] at hnodup
    obtain ⟨hne, hnd⟩ := List.nodup_cons.mp hnodup
    have hdisj : ∀ kv ∈ acc ++ [(e.addr, { endpoint := e, untilT := u })],
        ¬ kv.1 ∈ rest.map (fun ep => ep.addr) := by
      intro kv hkv
      rcases List.mem_append.mp hkv with hin | hin
      · intro hmem
        refine hd kv hin ?_
        rw [List.map_cons]
        exact List.mem_cons_of_mem _ hmem
      · simp only [List.mem_singleton] at hin
        subst hin
        exact hne
    rw [List.foldl_cons, hstep, ih _ hnd hdisj, List.map_cons]
    simp

/-- A fresh tracker updated with distinct-address endpoints caches
exactly one entry per endpoint, expiring at `t + lifetime`. -/
lemma trackerUpdate_fresh (t : Nat) (S : List TailcfgEndpoint)
    (hnodup : (S.map (fun ep => ep.addr)).Nodup) :
    (trackerUpdate [] t S).2 = S.map (fun ep =>
      (ep.addr, { endpoint := ep, untilT := t + endpointTrackerLifetime })) := by
  simp only [trackerUpdate, removeExpiredLocked]
  rw [foldAdd_nodup S [] _ hnodup (by intro kv h; cases h), List.nil_append]
  apply List.filter_eq_self.mpr
  intro kv hkv
  obtain ⟨ep, _, heq⟩ := List.mem_map.mp hkv
  rw [← heq]
  simp only [Bool.not_eq_true', decide_eq_false_iff_not]
  omega

/-- `update` with an empty input returns just the unexpired cached
endpoints. -/
lemma trackerUpdate_empty_input (cache : List (Nat × endpointTrackerEntry))
    (now : Nat) :
    (trackerUpdate cache now []).1 =
      (cache.filter (fun e => !decide (e.2.untilT < now))).map
        (fun e => e.2.endpoint) := by
  simp only [trackerUpdate, List.map_nil, List.nil_append]
  congr 1

/-- C6 (amended): for the endpoint tracker with lifetime 5m10s, on input
endpoints with pairwise-distinct addresses, `update (t, {})` performed
immediately after `update (t, S)` on a fresh tracker returns exactly
`S`; `update (t', {})` for any `t'` strictly after `t + lifetime`
returns the empty set; and in general `update now eps` returns every
input endpoint plus every cached, unexpired endpoint whose address is
not in the input — and nothing else — while resetting the expiry of
every input endpoint's cache entry to `now + lifetime`. -/
theorem C6_endpointTracker (t t' now : Nat) (S eps : List TailcfgEndpoint)
    (cache : List (Nat × endpointTrackerEntry))
    (hnodup : (S.map (fun ep => ep.addr)).Nodup)
    (ht' : t + endpointTrackerLifetime < t') :
    ((trackerUpdate (trackerUpdate [] t S).2 t []).1 = S) ∧
    ((trackerUpdate (trackerUpdate [] t S).2 t' []).1 = []) ∧
    (∀ ep ∈ eps, ep ∈ (trackerUpdate cache now eps).1) ∧
    (∀ kv ∈ cache, ¬ kv.1 ∈ eps.map (fun ep => ep.addr) →
      ¬ kv.2.untilT < now → kv.2.endpoint ∈ (trackerUpdate cache now eps).1) ∧
    (∀ x ∈ (trackerUpdate cache now eps).1, x ∈ eps ∨
      ∃ kv ∈ cache, kv.2.endpoint = x ∧
        ¬ kv.1 ∈ eps.map (fun ep => ep.addr) ∧ ¬ kv.2.untilT < now) ∧
    (∀ kv ∈ (trackerUpdate cache now eps).2,
      kv.1 ∈ eps.map (fun ep => ep.addr) →
        kv.2.untilT = now + endpointTrackerLifetime) ∧
    (∀ ep ∈ eps, ∃ kv ∈ (trackerUpdate cache now eps).2, kv.1 = ep.addr) := by
  refine ⟨?_, ?_, ?_, ?_, ?_, ?_, ?_⟩
  · rw [trackerUpdate_empty_input, trackerUpdate_fresh t S hnodup]
    rw [List.filter_eq_self.mpr ?hall, List.map_map]
    case hall =>
      intro kv hkv
      obtain ⟨ep, _, heq⟩ := List.mem_map.mp hkv
      rw [← heq]
      simp only [Bool.not_eq_true', decide_eq_false_iff_not]
      omega
    have : ((fun e : Nat × endpointTrackerEntry => e.2.endpoint) ∘ fun ep =>
        (ep.addr, ({ endpoint := ep, untilT := t + endpointTrackerLifetime } :
          endpointTrackerEntry))) = fun ep => ep := rfl
    rw [this]
    simp
  · rw [trackerUpdate_empty_input, trackerUpdate_fresh t S hnodup]
    rw [List.filter_eq_nil.mpr ?hnone, List.map_nil]
    case hnone =>
      intro kv hkv
      obtain ⟨ep, _, heq⟩ := List.mem_map.mp hkv
      rw [← heq]
      simp only [Bool.not_eq_true', decide_eq_false_iff_not, Decidable.not_not]
      exact ht'
  · intro ep h
    simp only [trackerUpdate]
    exact List.mem_append_left _ h
  · intro kv hkv hmem hexp
    simp only [trackerUpdate]
    refine List.mem_append_right _ (List.mem_map_of_mem _ ?_)
    refine List.mem_filter.mpr ⟨hkv, ?_⟩
    simp only [Bool.and_eq_true, Bool.not_eq_true', decide_eq_false_iff_not]
    exact ⟨hmem, hexp⟩
  · intro x hx
    simp only [trackerUpdate] at hx
    rcases List.mem_append.mp hx with hin | hin
    · exact Or.inl hin
    · obtain ⟨kv, hkv, heq⟩ := List.mem_map.mp hin
      have hf := List.mem_filter.mp hkv
      have := hf.2
      simp only [Bool.and_eq_true, Bool.not_eq_true',
        decide_eq_false_iff_not] at this
      exact Or.inr ⟨kv, hf.1, heq, this.1, this.2⟩
  · intro kv hkv hmem
    simp only [trackerUpdate, removeExpiredLocked] at hkv
    exact foldAdd_untilT eps cache (now + endpointTrackerLifetime) kv.1 hmem
      kv (List.mem_of_mem_filter hkv) rfl
  · intro ep hep
    obtain ⟨kv, hkv, hkey⟩ :=
      foldAdd_key_exists eps cache (now + endpointTrackerLifetime) ep hep
    have huntil : kv.2.untilT = now + endpointTrackerLifetime :=
      foldAdd_untilT eps cache (now + endpointTrackerLifetime) ep.addr
        (List.mem_map_of_mem _ hep) kv hkv hkey
    refine ⟨kv, ?_, hkey⟩
    simp only [trackerUpdate, removeExpiredLocked]
    refine List.mem_filter.mpr ⟨hkv, ?_⟩
    rw [huntil]
    simp only [Bool.not_eq_true', decide_eq_false_iff_not]
    omega

/-- Two endpoints sharing one address but with different types. -/
def dupS : List TailcfgEndpoint := [{ addr := 0, typ := 1 }, { addr := 0, typ := 2 }]

/-- The claim as stated (without the distinct-addresses proviso) fails:
after `update (t, dupS)` on a fresh tracker, `update (t, {})` loses the
second endpoint of the duplicated address, so it does not return the set
`dupS`. -/
theorem C6_counterexample :
    ({ addr := 0, typ := 2 } : TailcfgEndpoint) ∈ dupS ∧
      ¬ ({ addr := 0, typ := 2 } : TailcfgEndpoint) ∈
        (trackerUpdate (trackerUpdate [] 0 dupS).2 0 []).1 := by decide

/-- Two endpoints with distinct addresses. -/
def wS : List TailcfgEndpoint := [{ addr := 1, typ := 0 }, { addr := 2, typ := 0 }]

/-- Witness for C6 at concrete inputs: two distinct-address endpoints
observed at time 0. -/
theorem C6_endpointTracker_witness :
    ((trackerUpdate (trackerUpdate [] 0 wS).2 0 []).1 = wS) ∧
    ((trackerUpdate (trackerUpdate [] 0 wS).2 (310000000001) []).1 = []) ∧
    (∀ ep ∈ wS, ep ∈ (trackerUpdate [] 0 wS).1) ∧
    (∀ kv ∈ ([] : List (Nat × endpointTrackerEntry)),
      ¬ kv.1 ∈ wS.map (fun ep => ep.addr) → ¬ kv.2.untilT < 0 →
        kv.2.endpoint ∈ (trackerUpdate [] 0 wS).1) ∧
    (∀ x ∈ (trackerUpdate [] 0 wS).1, x ∈ wS ∨
      ∃ kv ∈ ([] : List (Nat × endpointTrackerEntry)), kv.2.endpoint = x ∧
        ¬ kv.1 ∈ wS.map (fun ep => ep.addr) ∧ ¬ kv.2.untilT < 0) ∧
    (∀ kv ∈ (trackerUpdate [] 0 wS).2,
      kv.1 ∈ wS.map (fun ep => ep.addr) →
        kv.2.untilT = 0 + endpointTrackerLifetime) ∧
    (∀ ep ∈ wS, ∃ kv ∈ (trackerUpdate [] 0 wS).2, kv.1 = ep.addr) :=
  C6_endpointTracker 0 310000000001 0 wS wS [] (by decide) (by decide)

/-! ## peerMap index consistency -/

/-- Modelled from the spec: the per-peer record shared by the peer map's
indices (`peerInfo`; its implementation is absent from `src/`, only its
callers in magicsock.go and the validator `peerMap.validate` in
`src/wgengine/magicsock/magicsock_test.go` are present).  `publicKey`
embeds `pi.ep.publicKey`, `discoKey` embeds `pi.ep.disco.Load()` (`none`
when nil), `ipPorts` the set of addresses routed to this peer. -/
structure PeerInfo where
  publicKey : Nat
  discoKey : Option Nat
  ipPorts : Nat → Bool

/-- Modelled from the spec: the three indices of the peer map
(spec section 4.4 AddressBook; implementation absent from `src/`).  Go
maps are embedded as functions to `Option`; the per-disco-key node sets
(`nodesOfDisco`) as lists so that the emptiness test of
`anyEndpointForDiscoKey` stays computable.  The shared `*peerInfo`
pointer of the Go `byIPPort` index is embedded as the owning node key. -/
structure PeerMap where
  byNodeKey : Nat → Option PeerInfo
  byIPPort : Nat → Option Nat
  nodesOfDisco : Nat → List Nat

/-- `newPeerMap`: all three indices empty. -/
def newPeerMap : PeerMap :=
  { byNodeKey := fun _ => none, byIPPort := fun _ => none,
    nodesOfDisco := fun _ => [] }

/-- Modelled from the spec: `peerMap.upsertEndpoint ep oldDiscoKey` —
the single mutating entry point that (re)registers a peer: ensure a
`byNodeKey` entry exists for `k` (keeping its addresses), record the
peer's new disco key, remove `k` from the old disco key's node set when
the key changed (or became nil), and add `k` to the new key's set. -/
def upsertEndpoint (m : PeerMap) (k : Nat) (newDisco oldDisco : Option Nat) :
    PeerMap :=
  let pi : PeerInfo :=
    match m.byNodeKey k with
    | some pi0 => { pi0 with discoKey := newDisco }
    | none => { publicKey := k, discoKey := newDisco, ipPorts := fun _ => false }
  { byNodeKey := fun q => if q = k then some pi else m.byNodeKey q,
    byIPPort := m.byIPPort,
    nodesOfDisco := fun dk =>
      let afterRemove :=
        if (newDisco = none ∨ newDisco ≠ oldDisco) ∧ oldDisco = some dk then
          (m.nodesOfDisco dk).filter (fun q => !decide (q = k))
        else m.nodesOfDisco dk
      if newDisco = some dk then
        if k ∈ afterRemove then afterRemove else k :: afterRemove
      else afterRemove }

/-- Modelled from the spec: `peerMap.deleteEndpoint ep` — discard the
peer entirely: drop `k` from the node set of its disco key `epDisco`,
drop its `byNodeKey` entry, and drop every address of its `ipPorts` set
from the `byIPPort` index. -/
def deleteEndpoint (m : PeerMap) (k : Nat) (epDisco : Option Nat) : PeerMap :=
  { byNodeKey := fun q => if q = k then none else m.byNodeKey q,
    byIPPort := fun q =>
      match m.byNodeKey k with
      | some pi0 => if pi0.ipPorts q then none else m.byIPPort q
      | none => m.byIPPort q,
    nodesOfDisco := fun dk =>
      if epDisco = some dk then
        (m.nodesOfDisco dk).filter (fun q => !decide (q = k))
      else m.nodesOfDisco dk }

/-- Modelled from the spec: the first half of
`peerMap.setNodeKeyForIPPort` — if `ipp` is currently routed to some
peer, remove it both from that peer's address set and from the
`byIPPort` index. -/
def removeIPPort (m : PeerMap) (ipp : Nat) : PeerMap :=
  match m.byIPPort ipp with
  | some oldNk =>
    { byNodeKey := fun q =>
        if q = oldNk then
          match m.byNodeKey oldNk with
          | some pi0 => some { pi0 with
              ipPorts := fun r => if r = ipp then false else pi0.ipPorts r }
          | none => none
        else m.byNodeKey q,
      byIPPort := fun q => if q = ipp then none else m.byIPPort q,
      nodesOfDisco := m.nodesOfDisco }
  | none => m

/-- Modelled from the spec: `peerMap.setNodeKeyForIPPort ipp nk` —
re-route the address `ipp` to peer `nk`: detach it from its previous
owner, then (if `nk` is a known peer) record it in `nk`'s address set
and point the `byIPPort` index at `nk`. -/
def setNodeKeyForIPPort (m : PeerMap) (ipp nk : Nat) : PeerMap :=
  let m1 := removeIPPort m ipp
  match m1.byNodeKey nk with
  | some pi =>
    { byNodeKey := fun q =>
        if q = nk then some { pi with
            ipPorts := fun r => if r = ipp then true else pi.ipPorts r }
        else m1.byNodeKey q,
      byIPPort := fun q => if q = ipp then some nk else m1.byIPPort q,
      nodesOfDisco := m1.nodesOfDisco }
  | none => m1

/-- `peerMap.anyEndpointForDiscoKey` (caller-visible behavior: is the
disco key's node set non-empty). -/
def anyEndpointForDiscoKey (m : PeerMap) (dk : Nat) : Bool :=
  !(m.nodesOfDisco dk).isEmpty

/-- The disco-info cleanup pass at the end of `Conn.SetNetworkMap`
(magicsock.go): discard every `Conn.discoInfo` key for which no endpoint
is registered any more. -/
def cleanupDiscoInfo (m : PeerMap) (dinfo : List Nat) : List Nat :=
  dinfo.filter (fun dk => anyEndpointForDiscoKey m dk)

/-- The mutual-consistency invariant of the peer map, from the test
validator `peerMap.validate` (src/wgengine/magicsock/magicsock_test.go):
every `byNodeKey` entry carries its own key and its addresses point back
at it through `byIPPort`; every `byIPPort` entry is recorded in the
address set of the peer it points at; and every node key in a disco
key's set is a live peer recorded under exactly that disco key. -/
def pmValid (m : PeerMap) : Prop :=
  (∀ k pi, m.byNodeKey k = some pi → pi.publicKey = k ∧
    ∀ ipp, pi.ipPorts ipp = true → m.byIPPort ipp = some k) ∧
  (∀ ipp k, m.byIPPort ipp = some k →
    ∃ pi, m.byNodeKey k = some pi ∧ pi.ipPorts ipp = true) ∧
  (∀ dk nk, nk ∈ m.nodesOfDisco dk →
    ∃ pi, m.byNodeKey nk = some pi ∧ pi.discoKey = some dk)

/-- The empty peer map is consistent. -/
lemma pmValid_new : pmValid newPeerMap := by
  refine ⟨?_, ?_, ?_⟩
  · intro k pi h
    cases h
  · intro ipp k h
    cases h
  · intro dk nk h
    cases h

/-- After the `SetNetworkMap` cleanup pass, every kept disco key is
referenced by at least one live endpoint. -/
lemma cleanup_keeps_live (m : PeerMap) (dinfo : List Nat) (hm : pmValid m) :
    ∀ dk ∈ cleanupDiscoInfo m dinfo, ∃ nk pi, nk ∈ m.nodesOfDisco dk ∧
      m.byNodeKey nk = some pi ∧ pi.discoKey = some dk := by
  intro dk hdk
  have hf := List.mem_filter.mp hdk
  have hne : m.nodesOfDisco dk ≠ [] := by
    intro hempty
    have := hf.2
    rw [anyEndpointForDiscoKey, hempty] at this
    cases this
  obtain ⟨nk, hnk⟩ := List.exists_mem_of_ne_nil _ hne
  obtain ⟨pi, hpi, hdisco⟩ := hm.2.2 dk nk hnk
  exact ⟨nk, pi, hnk, hpi, hdisco⟩

/-- `upsertEndpoint` preserves the peer-map invariant, provided the
caller passes the previously recorded disco key as `oldDisco` (as both
call sites in `Conn.SetNetworkMap` do). -/
lemma pmValid_upsert (m : PeerMap) (k : Nat) (newDisco oldDisco : Option Nat)
    (hm : pmValid m)
    (hold : ∀ pi0, m.byNodeKey k = some pi0 → oldDisco = pi0.discoKey) :
    pmValid (upsertEndpoint m k newDisco oldDisco) := by
  obtain ⟨h1, h2, h3⟩ := hm
  refine ⟨?_, ?_, ?_⟩
  · intro q pi' hq
    simp only [upsertEndpoint] at hq ⊢
    by_cases hqk : q = k
    · subst hqk
      rw [if_pos rfl] at hq
      rcases hbk : m.byNodeKey q with _ | pi0 <;> simp only [hbk] at hq <;>
        injection hq with hq <;> subst hq
      · exact ⟨rfl, fun ipp hipp => absurd hipp Bool.false_ne_true⟩
      · exact ⟨(h1 q pi0 hbk).1, fun ipp hipp => (h1 q pi0 hbk).2 ipp hipp⟩
    · rw [if_neg hqk] at hq
      exact h1 q pi' hq
  · intro ipp k2 hip
    simp only [upsertEndpoint] at hip ⊢
    obtain ⟨pi2, hpi2, hipports⟩ := h2 ipp k2 hip
    by_cases hk2 : k2 = k
    · subst hk2
      refine ⟨{ pi2 with discoKey := newDisco }, ?_, hipports⟩
      rw [if_pos rfl]
      simp only [hpi2]
    · exact ⟨pi2, by rw [if_neg hk2]; exact hpi2, hipports⟩
  · intro dk nk2 hmem
    simp only [upsertEndpoint] at hmem ⊢
    by_cases hnew : newDisco = some dk
    · rw [if_pos hnew] at hmem
      by_cases hnk2 : nk2 = k
      · subst hnk2
        rcases hbk : m.byNodeKey nk2 with _ | pi0
        · refine ⟨{ publicKey := nk2, discoKey := newDisco, ipPorts := fun _ => false },
            ?_, hnew⟩
          simp only [hbk]
          simp
        · refine ⟨{ pi0 with discoKey := newDisco }, ?_, hnew⟩
          simp only [hbk]
          simp
      · have hmem1 : nk2 ∈
            (if (newDisco = none ∨ newDisco ≠ oldDisco) ∧ oldDisco = some dk then
              (m.nodesOfDisco dk).filter (fun q => !decide (q = k))
            else m.nodesOfDisco dk) := by
          by_cases hin : k ∈
              (if (newDisco = none ∨ newDisco ≠ oldDisco) ∧ oldDisco = some dk then
                (m.nodesOfDisco dk).filter (fun q => !decide (q = k))
              else m.nodesOfDisco dk)
          · rw [if_pos hin] at hmem
            exact hmem
          · rw [if_neg hin] at hmem
            rcases List.mem_cons.mp hmem with h | h
            · exact absurd h hnk2
            · exact h
        have hmemS : nk2 ∈ m.nodesOfDisco dk := by
          split at hmem1
          · exact List.mem_of_mem_filter hmem1
          · exact hmem1
        obtain ⟨pi2, hpi2, hd2⟩ := h3 dk nk2 hmemS
        exact ⟨pi2, by rw [if_neg hnk2]; exact hpi2, hd2⟩
    · rw [if_neg hnew] at hmem
      by_cases hnk2 : nk2 = k
      · subst hnk2
        by_cases hrem : (newDisco = none ∨ newDisco ≠ oldDisco) ∧ oldDisco = some dk
        · rw [if_pos hrem] at hmem
          have := (List.mem_filter.mp hmem).2
          simp at this
        · rw [if_neg hrem] at hmem
          obtain ⟨pi0, hpi0, hd0⟩ := h3 dk nk2 hmem
          have ho := hold pi0 hpi0
          rw [hd0] at ho
          have hno : ¬ (newDisco = none ∨ newDisco ≠ oldDisco) :=
            fun hcon => hrem ⟨hcon, ho⟩
          push_neg at hno
          rw [hno.2, ho] at hnew
          exact absurd rfl hnew
      · have hmemS : nk2 ∈ m.nodesOfDisco dk := by
          split at hmem
          · exact List.mem_of_mem_filter hmem
          · exact hmem
        obtain ⟨pi2, hpi2, hd2⟩ := h3 dk nk2 hmemS
        exact ⟨pi2, by rw [if_neg hnk2]; exact hpi2, hd2⟩

/-- `deleteEndpoint` preserves the peer-map invariant, provided the
caller passes the peer's recorded disco key as `epDisco` (the endpoint
and its `peerInfo` share the same disco state). -/
lemma pmValid_delete (m : PeerMap) (k : Nat) (epDisco : Option Nat)
    (hm : pmValid m)
    (hdel : ∀ pi0, m.byNodeKey k = some pi0 → epDisco = pi0.discoKey) :
    pmValid (deleteEndpoint m k epDisco) := by
  obtain ⟨h1, h2, h3⟩ := hm
  refine ⟨?_, ?_, ?_⟩
  · intro q pi' hq
    simp only [deleteEndpoint] at hq ⊢
    by_cases hqk : q = k
    · rw [if_pos hqk] at hq
      cases hq
    · rw [if_neg hqk] at hq
      refine ⟨(h1 q pi' hq).1, ?_⟩
      intro ipp hipp
      have hip := (h1 q pi' hq).2 ipp hipp
      rcases hbk : m.byNodeKey k with _ | pi0 <;> simp only [hbk]
      · exact hip
      · by_cases hp0 : pi0.ipPorts ipp = true
        · have hk := (h1 k pi0 hbk).2 ipp hp0
          rw [hip] at hk
          injection hk with hk
          exact absurd hk hqk
        · rw [if_neg hp0]
          exact hip
  · intro ipp k2 hip
    simp only [deleteEndpoint] at hip ⊢
    rcases hbk : m.byNodeKey k with _ | pi0 <;> simp only [hbk] at hip
    · obtain ⟨pi2, hpi2, hp2⟩ := h2 ipp k2 hip
      have hk2 : ¬ k2 = k := by
        intro he
        subst he
        rw [hpi2] at hbk
        cases hbk
      exact ⟨pi2, by rw [if_neg hk2]; exact hpi2, hp2⟩
    · by_cases hp0 : pi0.ipPorts ipp = true
      · rw [if_pos hp0] at hip
        cases hip
      · rw [if_neg hp0] at hip
        obtain ⟨pi2, hpi2, hp2⟩ := h2 ipp k2 hip
        have hk2 : ¬ k2 = k := by
          intro he
          subst he
          rw [hpi2] at hbk
          injection hbk with hbk
          rw [hbk] at hp2
          exact hp0 hp2
        exact ⟨pi2, by rw [if_neg hk2]; exact hpi2, hp2⟩
  · intro dk nk2 hmem
    simp only [deleteEndpoint] at hmem ⊢
    by_cases hnk2 : nk2 = k
    · subst hnk2
      by_cases hed : epDisco = some dk
      · rw [if_pos hed] at hmem
        have := (List.mem_filter.mp hmem).2
        simp at this
      · rw [if_neg hed] at hmem
        obtain ⟨pi0, hpi0, hd0⟩ := h3 dk nk2 hmem
        have := hdel pi0 hpi0
        rw [hd0] at this
        exact absurd this hed
    · have hmemS : nk2 ∈ m.nodesOfDisco dk := by
        split at hmem
        · exact List.mem_of_mem_filter hmem
        · exact hmem
      obtain ⟨pi2, hpi2, hd2⟩ := h3 dk nk2 hmemS
      exact ⟨pi2, by rw [if_neg hnk2]; exact hpi2, hd2⟩

/-- Detaching an address preserves the peer-map invariant, and leaves
the address unrouted. -/
lemma pmValid_removeIPPort (m : PeerMap) (ipp : Nat) (hm : pmValid m) :
    pmValid (removeIPPort m ipp) ∧ (removeIPPort m ipp).byIPPort ipp = none := by
  obtain ⟨h1, h2, h3⟩ := hm
  rcases hbi : m.byIPPort ipp with _ | oldNk
  · refine ⟨?_, ?_⟩
    · simp only [removeIPPort, hbi]
      exact ⟨h1, h2, h3⟩
    · simp only [removeIPPort, hbi]
  · obtain ⟨piO, hpiO, hpO⟩ := h2 ipp oldNk hbi
    refine ⟨⟨?_, ?_, ?_⟩, ?_⟩
    · intro q pi' hq
      simp only [removeIPPort, hbi, hpiO] at hq ⊢
      by_cases hqo : q = oldNk
      · rw [if_pos hqo] at hq
        injection hq with hq
        subst hq
        constructor
        · show piO.publicKey = q
          rw [hqo]
          exact (h1 oldNk piO hpiO).1
        · intro r hr
          have hr' : (if r = ipp then false else piO.ipPorts r) = true := hr
          by_cases hrip : r = ipp
          · rw [if_pos hrip] at hr'
            exact absurd hr' Bool.false_ne_true
          · rw [if_neg hrip] at hr'
            show (if r = ipp then none else m.byIPPort r) = some q
            rw [if_neg hrip, hqo]
            exact (h1 oldNk piO hpiO).2 r hr'
      · rw [if_neg hqo] at hq
        refine ⟨(h1 q pi' hq).1, ?_⟩
        intro r hr
        have hmr := (h1 q pi' hq).2 r hr
        show (if r = ipp then none else m.byIPPort r) = some q
        by_cases hrip : r = ipp
        · exfalso
          rw [hrip] at hmr
          rw [hmr] at hbi
          injection hbi with hbi
          exact hqo hbi
        · rw [if_neg hrip]
          exact hmr
    · intro r k2 hr2
      simp only [removeIPPort, hbi, hpiO] at hr2 ⊢
      by_cases hrip : r = ipp
      · rw [if_pos hrip] at hr2
        cases hr2
      · rw [if_neg hrip] at hr2
        obtain ⟨pi2, hpi2, hp2⟩ := h2 r k2 hr2
        by_cases hk2 : k2 = oldNk
        · have hpi2O : m.byNodeKey oldNk = some pi2 := by rw [← hk2]; exact hpi2
          rw [hpiO] at hpi2O
          injection hpi2O with heq
          refine ⟨{ piO with
            ipPorts := fun r' => if r' = ipp then false else piO.ipPorts r' }, ?_, ?_⟩
          · rw [if_pos hk2]
          · show (if r = ipp then false else piO.ipPorts r) = true
            rw [if_neg hrip, heq]
            exact hp2
        · exact ⟨pi2, by rw [if_neg hk2]; exact hpi2, hp2⟩
    · intro dk nk2 hmem
      simp only [removeIPPort, hbi, hpiO] at hmem ⊢
      obtain ⟨pi2, hpi2, hd2⟩ := h3 dk nk2 hmem
      by_cases hk2 : nk2 = oldNk
      · have hpi2O : m.byNodeKey oldNk = some pi2 := by rw [← hk2]; exact hpi2
        rw [hpiO] at hpi2O
        injection hpi2O with heq
        refine ⟨{ piO with
          ipPorts := fun r' => if r' = ipp then false else piO.ipPorts r' }, ?_, ?_⟩
        · rw [if_pos hk2]
        · show piO.discoKey = some dk
          rw [heq]
          exact hd2
      · exact ⟨pi2, by rw [if_neg hk2]; exact hpi2, hd2⟩
    · simp only [removeIPPort, hbi]
      simp

/-- `setNodeKeyForIPPort` preserves the peer-map invariant. -/
lemma pmValid_setNodeKey (m : PeerMap) (ipp nk : Nat) (hm : pmValid m) :
    pmValid (setNodeKeyForIPPort m ipp nk) := by
  obtain ⟨hm1, hnone⟩ := pmValid_removeIPPort m ipp hm
  obtain ⟨h1, h2, h3⟩ := hm1
  simp only [setNodeKeyForIPPort]
  rcases hbk : (removeIPPort m ipp).byNodeKey nk with _ | pi <;> simp only [hbk]
  · exact ⟨h1, h2, h3⟩
  · refine ⟨?_, ?_, ?_⟩
    · intro q pi' hq
      have hq' : (if q = nk then
          some { pi with ipPorts := fun r => if r = ipp then true else pi.ipPorts r }
          else (removeIPPort m ipp).byNodeKey q) = some pi' := hq
      by_cases hqn : q = nk
      · rw [if_pos hqn] at hq'
        injection hq' with hq'
        subst hq'
        constructor
        · show pi.publicKey = q
          rw [hqn]
          exact (h1 nk pi hbk).1
        · intro r hr
          have hr' : (if r = ipp then true else pi.ipPorts r) = true := hr
          show (if r = ipp then some nk else (removeIPPort m ipp).byIPPort r) =
            some q
          by_cases hrip : r = ipp
          · rw [if_pos hrip, hqn]
          · rw [if_neg hrip] at hr'
            rw [if_neg hrip, hqn]
            exact (h1 nk pi hbk).2 r hr'
      · rw [if_neg hqn] at hq'
        refine ⟨(h1 q pi' hq').1, ?_⟩
        intro r hr
        have hmr := (h1 q pi' hq').2 r hr
        show (if r = ipp then some nk else (removeIPPort m ipp).byIPPort r) =
          some q
        by_cases hrip : r = ipp
        · exfalso
          rw [hrip] at hmr
          rw [hnone] at hmr
          cases hmr
        · rw [if_neg hrip]
          exact hmr
    · intro r k2 hr2
      have hr2' : (if r = ipp then some nk
          else (removeIPPort m ipp).byIPPort r) = some k2 := hr2
      by_cases hrip : r = ipp
      · rw [if_pos hrip] at hr2'
        injection hr2' with he
        refine ⟨{ pi with ipPorts := fun r' => if r' = ipp then true else pi.ipPorts r' },
          ?_, ?_⟩
        · show (if k2 = nk then
              some { pi with ipPorts := fun r' => if r' = ipp then true else pi.ipPorts r' }
              else (removeIPPort m ipp).byNodeKey k2) = _
          rw [if_pos he.symm]
        · show (if r = ipp then true else pi.ipPorts r) = true
          rw [if_pos hrip]
      · rw [if_neg hrip] at hr2'
        obtain ⟨pi2, hpi2, hp2⟩ := h2 r k2 hr2'
        by_cases hk2 : k2 = nk
        · have hpi2n : (removeIPPort m ipp).byNodeKey nk = some pi2 := by
            rw [← hk2]
            exact hpi2
          rw [hbk] at hpi2n
          injection hpi2n with heq
          refine ⟨{ pi with ipPorts := fun r' => if r' = ipp then true else pi.ipPorts r' },
            ?_, ?_⟩
          · show (if k2 = nk then _ else (removeIPPort m ipp).byNodeKey k2) = _
            rw [if_pos hk2]
          · show (if r = ipp then true else pi.ipPorts r) = true
            rw [if_neg hrip, heq]
            exact hp2
        · refine ⟨pi2, ?_, hp2⟩
          show (if k2 = nk then _ else (removeIPPort m ipp).byNodeKey k2) = some pi2
          rw [if_neg hk2]
          exact hpi2
    · intro dk nk2 hmem
      have hmem' : nk2 ∈ (removeIPPort m ipp).nodesOfDisco dk := hmem
      obtain ⟨pi2, hpi2, hd2⟩ := h3 dk nk2 hmem'
      by_cases hk2 : nk2 = nk
      · have hpi2n : (removeIPPort m ipp).byNodeKey nk = some pi2 := by
          rw [← hk2]
          exact hpi2
        rw [hbk] at hpi2n
        injection hpi2n with heq
        refine ⟨{ pi with ipPorts := fun r' => if r' = ipp then true else pi.ipPorts r' },
          ?_, ?_⟩
        · show (if nk2 = nk then _ else (removeIPPort m ipp).byNodeKey nk2) = _
          rw [if_pos hk2]
        · show pi.discoKey = some dk
          rw [heq]
          exact hd2
      · refine ⟨pi2, ?_, hd2⟩
        show (if nk2 = nk then _ else (removeIPPort m ipp).byNodeKey nk2) = some pi2
        rw [if_neg hk2]
        exact hpi2
/-- C7: the peer map's indices are mutually consistent whenever its lock
is released: the invariant of the test validator holds of the empty map
and is preserved by every mutating operation — `upsertEndpoint` (with
the previously recorded disco key, as `SetNetworkMap` passes it),
`deleteEndpoint` (with the peer's recorded disco key),
`setNodeKeyForIPPort` — so any sequence of them (`SetNetworkMap`, disco
handling, peer deletion) keeps it; and after the `SetNetworkMap`
disco-info cleanup pass, every disco key kept in `Conn.discoInfo` is
referenced by at least one live endpoint. -/
theorem C7_peerMap_consistency (m : PeerMap) (dinfo : List Nat)
    (k ipp nk : Nat) (newDisco oldDisco epDisco : Option Nat)
    (hm : pmValid m)
    (hold : ∀ pi0, m.byNodeKey k = some pi0 → oldDisco = pi0.discoKey)
    (hdel : ∀ pi0, m.byNodeKey k = some pi0 → epDisco = pi0.discoKey) :
    pmValid newPeerMap ∧
    pmValid (upsertEndpoint m k newDisco oldDisco) ∧
    pmValid (deleteEndpoint m k epDisco) ∧
    pmValid (setNodeKeyForIPPort m ipp nk) ∧
    (∀ dk ∈ cleanupDiscoInfo m dinfo, ∃ nk2 pi, nk2 ∈ m.nodesOfDisco dk ∧
      m.byNodeKey nk2 = some pi ∧ pi.discoKey = some dk) :=
  ⟨pmValid_new, pmValid_upsert m k newDisco oldDisco hm hold,
    pmValid_delete m k epDisco hm hdel, pmValid_setNodeKey m ipp nk hm,
    cleanup_keeps_live m dinfo hm⟩

/-- Witness for C7 at a concrete map: registering peer 5 with disco key
7 into the empty map, deleting from it, re-routing an address, and
cleaning an empty disco-info table. -/
theorem C7_peerMap_consistency_witness :
    pmValid newPeerMap ∧
    pmValid (upsertEndpoint newPeerMap 5 (some 7) none) ∧
    pmValid (deleteEndpoint newPeerMap 5 none) ∧
    pmValid (setNodeKeyForIPPort newPeerMap 3 5) ∧
    (∀ dk ∈ cleanupDiscoInfo newPeerMap [9], ∃ nk2 pi,
      nk2 ∈ newPeerMap.nodesOfDisco dk ∧
      newPeerMap.byNodeKey nk2 = some pi ∧ pi.discoKey = some dk) :=
  C7_peerMap_consistency newPeerMap [9] 5 3 5 (some 7) none none
    pmValid_new (fun pi0 h => nomatch h) (fun pi0 h => nomatch h)

/-! ## Ping handling -/

/-- Inputs of `Conn.handlePingLocked` (magicsock.go): the ping's
transaction id and apparent source address; whether the source is the
DERP magic address; the disco-info heartbeat state (`di.lastPingFrom`,
`di.lastPingTime`) and the current time (nanoseconds); `derpEp` is the
result of `peerMap.endpointForNodeKey derpNodeSrc` for a DERP arrival
(`none` if unknown, otherwise that endpoint's
`addCandidateEndpoint src txid` duplicate flag); `discoEps` are the
`addCandidateEndpoint` duplicate flags of the endpoints sharing the
sender's disco key, in iteration order, for a UDP arrival. -/
structure PingInput where
  txid : Nat
  src : Nat
  srcIsDerp : Bool
  lastPingFrom : Nat
  lastPingTime : Nat
  now : Nat
  derpEp : Option Bool
  discoEps : List Bool
deriving DecidableEq

/-- The Pong that `handlePingLocked` spawns via `sendDiscoMessage`:
destination address, echoed transaction id, and the `Src` field carrying
the ping's apparent source. -/
structure PongReply where
  ipDst : Nat
  txid : Nat
  src : Nat
deriving DecidableEq

/-- `Conn.handlePingLocked` (magicsock.go), reduced to its observable
reply: classify the ping as a likely heartbeat (same source as the
previous ping, less than 5 seconds ago — used only to suppress verbose
logging); over DERP, reply unless the peer is unknown or the transaction
is a duplicate candidate; over UDP, reply unless some endpoint with the
sender's disco key reports a duplicate or no such endpoint exists.  The
reply echoes the transaction id and carries the apparent source, and is
sent to that same source.  Returns `(reply?, likelyHeartBeat)`. -/
def handlePingLocked (inp : PingInput) : Option PongReply × Bool :=
  let likelyHeartBeat := inp.src == inp.lastPingFrom &&
    decide (inp.now - inp.lastPingTime < 5 * 1000000000)
  if inp.srcIsDerp then
    match inp.derpEp with
    | some dup =>
      if dup then (none, likelyHeartBeat)
      else (some { ipDst := inp.src, txid := inp.txid, src := inp.src },
        likelyHeartBeat)
    | none => (none, likelyHeartBeat)
  else
    if inp.discoEps.any (fun d => d) then (none, likelyHeartBeat)
    else if inp.discoEps.length = 0 then (none, likelyHeartBeat)
    else (some { ipDst := inp.src, txid := inp.txid, src := inp.src },
      likelyHeartBeat)

/-- C8: every disco ping accepted from a known peer whose transaction id
is not a duplicate of an already-recorded candidate is answered with a
Pong that echoes the transaction id and carries the apparent source
address (sent back to that source); and the answer is independent of the
heartbeat classification (same outcome for every `lastPingFrom` /
`lastPingTime`), which only suppresses verbose logging. -/
theorem C8_ping_answered (inp : PingInput)
    (hderp : inp.srcIsDerp = true → inp.derpEp = some false)
    (hudp : inp.srcIsDerp = false →
      inp.discoEps ≠ [] ∧ ∀ d ∈ inp.discoEps, d = false) :
    ((handlePingLocked inp).1 =
      some { ipDst := inp.src, txid := inp.txid, src := inp.src }) ∧
    (∀ lastFrom lastTime,
      (handlePingLocked
        { inp with lastPingFrom := lastFrom, lastPingTime := lastTime }).1 =
        (handlePingLocked inp).1) := by
  have main : ∀ inp2 : PingInput, inp2.srcIsDerp = inp.srcIsDerp →
      inp2.derpEp = inp.derpEp → inp2.discoEps = inp.discoEps →
      inp2.src = inp.src → inp2.txid = inp.txid →
      (handlePingLocked inp2).1 =
        some { ipDst := inp.src, txid := inp.txid, src := inp.src } := by
    intro inp2 he hd hl hs ht
    unfold handlePingLocked
    cases hsd : inp.srcIsDerp
    · obtain ⟨hne, hall⟩ := hudp hsd
      have hany : inp2.discoEps.any (fun d => d) = false := by
        rw [hl]
        cases hres : inp.discoEps.any (fun d => d)
        · rfl
        · obtain ⟨d, hdmem, hdt⟩ := List.any_eq_true.mp hres
          rw [hall d hdmem] at hdt
          cases hdt
      have hlen : ¬ inp2.discoEps.length = 0 := by
        rw [hl]
        intro h0
        exact hne (List.eq_nil_of_length_eq_zero h0)
      rw [he, hsd]
      rw [if_neg (fun hcon => Bool.false_ne_true hcon)]
      rw [if_neg (fun hcon => Bool.false_ne_true (hany ▸ hcon))]
      rw [if_neg hlen]
      simp only [hs, ht]
    · rw [he, hsd]
      rw [if_pos rfl]
      rw [hd, hderp hsd]
      simp only [Bool.false_eq_true, if_false, hs, ht]
  exact ⟨main inp rfl rfl rfl rfl rfl,
    fun lastFrom lastTime => by
      rw [main { inp with lastPingFrom := lastFrom, lastPingTime := lastTime }
          rfl rfl rfl rfl rfl,
        main inp rfl rfl rfl rfl rfl]⟩

/-- Witness for C8 at concrete inputs: a non-duplicate UDP ping from a
known peer, inside the 5-second heartbeat window. -/
theorem C8_ping_answered_witness :
    ((handlePingLocked
      { txid := 42, src := 9, srcIsDerp := false, lastPingFrom := 9,
        lastPingTime := 0, now := 1000000000, derpEp := none,
        discoEps := [false] }).1 =
      some { ipDst := 9, txid := 42, src := 9 }) ∧
    (∀ lastFrom lastTime,
      (handlePingLocked
        { txid := 42, src := 9, srcIsDerp := false, lastPingFrom := lastFrom,
          lastPingTime := lastTime, now := 1000000000, derpEp := none,
          discoEps := [false] }).1 =
        (handlePingLocked
          { txid := 42, src := 9, srcIsDerp := false, lastPingFrom := 9,
            lastPingTime := 0, now := 1000000000, derpEp := none,
            discoEps := [false] }).1) :=
  C8_ping_answered
    { txid := 42, src := 9, srcIsDerp := false, lastPingFrom := 9,
      lastPingTime := 0, now := 1000000000, derpEp := none,
      discoEps := [false] }
    (fun h => nomatch h)
    (fun _ => ⟨by decide, by decide⟩)

end Magicsock
